import Mathlib

/-! Shallow embedding of the ABC-notation playback core of the music-rnn
repository: the functions parseABCNotation, noteToMIDI and getDefaultNotes
of static/js/playback.js, the copies embedded in static/js/generation.js,
and the transport/scheduler logic of playAudio and playNotes.

Modelling conventions: durations (JS numbers produced by integer division)
are modelled as rationals, MIDI pitches as integers; characters are
compared through their code points (`Char.toNat`), matching the JS
character classes; the character-by-character scan of a line, a while loop
in the source, is written with an explicit fuel argument equal to the
length of the remaining input (one character is consumed per iteration,
so that much fuel is always enough; `scanLineF_congr` below makes the
fuel irrelevant).
-/

/-- A parsed note or rest event: mirrors the object literals
`{pitch, duration, rest}` pushed by parseABCNotation. -/
structure NoteEvent where
  pitch : ℤ
  duration : ℚ
  rest : Bool
  deriving DecidableEq, Repr

/-- The apostrophe character (code point 39), ABC octave-up marker. -/
def apoChar : Char := Char.ofNat 39

/-- The comma character (code point 44), ABC octave-down marker. -/
def commaChar : Char := Char.ofNat 44

/-- The double-quote character (code point 34), chord-annotation delimiter. -/
def quoteChar : Char := Char.ofNat 34

/-- Character class of the regex `[A-Ga-g]` (note letters). -/
def isNoteLetterC (c : Char) : Bool :=
  (65 ≤ c.toNat && c.toNat ≤ 71) || (97 ≤ c.toNat && c.toNat ≤ 103)

/-- Character class of the regex `[\^_=]` (accidental markers `^ _ =`). -/
def isAccidentalC (c : Char) : Bool :=
  c.toNat = 94 || c.toNat = 95 || c.toNat = 61

/-- Character class of the regex `[',]` (octave markers). -/
def isOctaveC (c : Char) : Bool :=
  c.toNat = 39 || c.toNat = 44

/-- Character class of the regex `[|:\[\]]` (bar lines, repeats, brackets). -/
def isBarC (c : Char) : Bool :=
  c.toNat = 124 || c.toNat = 58 || c.toNat = 91 || c.toNat = 93

/-- Character class of the regex `[{}~!+.]` (decorations). -/
def isDecoC (c : Char) : Bool :=
  c.toNat = 123 || c.toNat = 125 || c.toNat = 126 ||
    c.toNat = 33 || c.toNat = 43 || c.toNat = 46

/-- Character class of `[A-Za-z]`; used to state which tokens are
letter-headed in the pitch-mapper claims. -/
def isLetterC (c : Char) : Bool :=
  (65 ≤ c.toNat && c.toNat ≤ 90) || (97 ≤ c.toNat && c.toNat ≤ 122)

/-- Numeric value of a digit character, as in JS `parseInt` applied to the
single character `line[i]`. -/
def digitVal (c : Char) : ℕ := c.toNat - 48

/-- The fixed 13-entry pitch table `noteMap` of noteToMIDI. -/
def noteMap : List (String × ℤ) :=
  [("D", 62), ("E", 64), ("F", 65), ("G", 67), ("A", 69), ("B", 71),
   ("c", 72), ("d", 74), ("e", 76), ("f", 77), ("g", 79), ("a", 81), ("b", 83)]

/-- noteToMIDI from static/js/playback.js: strip octave markers to get the
base letter, look it up in `noteMap` with default 64 (the JS `|| 64`), add
12 per apostrophe, subtract 12 per comma, and clamp into `[0, 127]`
(`Math.max(0, Math.min(127, midi))`). -/
def noteToMIDI (note : String) : ℤ :=
  let cs := note.data
  let baseNote := String.mk (cs.filter (fun c => !(isOctaveC c)))
  let base := (noteMap.lookup baseNote).getD 64
  let up : ℤ := cs.count apoChar
  let down : ℤ := cs.count commaChar
  max 0 (min 127 (base + 12 * up - 12 * down))

/-- Table value of a single base letter: `noteMap[letter] || 64`. -/
def baseVal (c : Char) : ℤ := (noteMap.lookup (String.mk [c])).getD 64

/-- getDefaultNotes from static/js/playback.js: the fixed 8-event fallback
sequence. -/
def getDefaultNotes : List NoteEvent :=
  [⟨64, 1, false⟩, ⟨67, 1, false⟩, ⟨69, 1, false⟩, ⟨71, 1, false⟩,
   ⟨76, 1, false⟩, ⟨79, 1, false⟩, ⟨81, 1, false⟩, ⟨83, 1, false⟩]

/-- The duration scan shared verbatim by the note branch and the rest
branch of parseABCNotation: an optional single digit as numerator
(default 1), then an optional `/` followed by an optional single digit as
denominator (default 2 when the `/` has no following digit). Returns the
duration and the unconsumed remainder of the line. -/
def parseDuration (l : List Char) : ℚ × List Char :=
  match l with
  | [] => (1, [])
  | c :: rest =>
    if c.isDigit then
      match rest with
      | d :: rest2 =>
        if d.toNat = 47 then
          match rest2 with
          | e :: rest3 =>
            if e.isDigit then ((digitVal c : ℚ) / (digitVal e : ℚ), rest3)
            else ((digitVal c : ℚ) / 2, rest2)
          | [] => ((digitVal c : ℚ) / 2, [])
        else ((digitVal c : ℚ), rest)
      | [] => ((digitVal c : ℚ), [])
    else if c.toNat = 47 then
      match rest with
      | e :: rest2 =>
        if e.isDigit then ((1 : ℚ) / (digitVal e : ℚ), rest2)
        else ((1 : ℚ) / 2, rest)
      | [] => ((1 : ℚ) / 2, [])
    else (1, l)

/-- The slash character (code point 47), duration-denominator marker. -/
def slashChar : Char := Char.ofNat 47

/-- The chord-annotation skip of parseABCNotation: after an opening `"`,
advance past the closing `"` (or to the end of the line). -/
def skipQuote (l : List Char) : List Char :=
  (l.dropWhile (fun c => !(c = quoteChar))).drop 1

/-- One line of parseABCNotation's character scan, with explicit fuel
(one unit per loop iteration; the loop consumes at least one character per
iteration, so fuel = length of the line suffices). The branch order is the
source's: chord annotation, bar symbols, space, decorations, note letter
(accidentals skipped, octave markers appended, duration parsed), rest
letter `z`, and a silent skip for anything else. -/
def scanLineF : ℕ → List Char → List NoteEvent
  | 0, _ => []
  | _ + 1, [] => []
  | f + 1, c :: rest =>
    if c = quoteChar then scanLineF f (skipQuote rest)
    else if isBarC c then scanLineF f rest
    else if c = ' ' then scanLineF f rest
    else if isDecoC c then scanLineF f rest
    else if isNoteLetterC c then
      let r1 := rest.dropWhile isAccidentalC
      let octs := r1.takeWhile isOctaveC
      let r2 := r1.dropWhile isOctaveC
      let pd := parseDuration r2
      ⟨noteToMIDI (String.mk (c :: octs)), pd.1, false⟩ :: scanLineF f pd.2
    else if c = 'z' then
      let pd := parseDuration rest
      ⟨0, pd.1, true⟩ :: scanLineF f pd.2
    else scanLineF f rest

/-- The full character scan of one line. -/
def scanLine (l : List Char) : List NoteEvent := scanLineF l.length l

/-- `notation.split('\n')` on the underlying character list. -/
def splitLines : List Char → List (List Char)
  | [] => [[]]
  | c :: rest =>
    if c.toNat = 10 then [] :: splitLines rest
    else
      match splitLines rest with
      | h :: t => (c :: h) :: t
      | [] => [[c]]

/-- The header test `line.match(/^[A-Z]:/)`. -/
def isHeaderL (l : List Char) : Bool :=
  match l with
  | a :: b :: _ => a.isUpper && b.toNat = 58
  | _ => false

/-- The blank-line test `line.trim() === ''`. -/
def isBlankL (l : List Char) : Bool := l.all (fun c => c.isWhitespace)

/-- The per-line step of parseABCNotation: header lines and blank lines
contribute nothing, every other line is scanned for events. -/
def lineNotes (l : List Char) : List NoteEvent :=
  if isHeaderL l then [] else if isBlankL l then [] else scanLine l

/-- All events collected across the lines of the input, in source order. -/
def collectNotes (s : String) : List NoteEvent :=
  ((splitLines s.data).map lineNotes).flatten

/-- parseABCNotation from static/js/playback.js: collect the events of all
lines and fall back to getDefaultNotes when none were produced. -/
def parseABC (s : String) : List NoteEvent :=
  let notes := collectNotes s
  if notes.length = 0 then getDefaultNotes else notes

/-! The copies embedded in static/js/generation.js. Their character-scanning
loop, header test and blank-line test are textually identical to the
playback.js ones (only console.log calls differ), so those are shared
(`scanLine`, `isHeaderL`, `isBlankL`); the functions whose text differs
(the final fallback expression of parseABCNotation) or that are wholly
duplicated (noteToMIDI, getDefaultNotes) get their own definitions below.
-/

/-- noteToMIDI as copied in static/js/generation.js (textually the same
algorithm as the playback.js one). -/
def noteToMIDI_gen (note : String) : ℤ :=
  let cs := note.data
  let baseNote := String.mk (cs.filter (fun c => !(isOctaveC c)))
  let base := (noteMap.lookup baseNote).getD 64
  let up : ℤ := cs.count apoChar
  let down : ℤ := cs.count commaChar
  max 0 (min 127 (base + 12 * up - 12 * down))

/-- getDefaultNotes as copied in static/js/generation.js. -/
def getDefaultNotes_gen : List NoteEvent :=
  [⟨64, 1, false⟩, ⟨67, 1, false⟩, ⟨69, 1, false⟩, ⟨71, 1, false⟩,
   ⟨76, 1, false⟩, ⟨79, 1, false⟩, ⟨81, 1, false⟩, ⟨83, 1, false⟩]

/-- The per-line and across-lines collection of the generation.js copy. -/
def collectNotes_gen (s : String) : List NoteEvent :=
  ((splitLines s.data).map lineNotes).flatten

/-- parseABCNotation as copied in static/js/generation.js; its fallback is
written `notes.length > 0 ? notes : getDefaultNotes()`. -/
def parseABC_gen (s : String) : List NoteEvent :=
  let notes := collectNotes_gen s
  if notes.length > 0 then notes else getDefaultNotes_gen

/-- JS `Math.round` on a (nonnegative) rational: floor of the value
plus one half. -/
def jsRound (q : ℚ) : ℤ := ⌊q + 1 / 2⌋

/-- The progress reports issued by the playNotes loop, with fuel (the
loop advances `currentNoteIndex` by one per iteration, so
`total - idx ≤ fuel` is always enough). Each iteration of the source loop
reports `Math.round(((currentNoteIndex + 1) / totalNotes) * 100)` to the
status sink; the synthesizer trigger and the timed suspension are external
effects not modelled here. -/
def playNotesF : ℕ → ℕ → ℕ → List ℤ
  | 0, _, _ => []
  | f + 1, total, idx =>
    if idx < total then
      jsRound (((idx + 1 : ℕ) : ℚ) / (total : ℚ) * 100) :: playNotesF f total (idx + 1)
    else []

/-- The sequence of progress percentages reported by a playNotes run that
reaches natural completion (no pause or stop issued, so `isPlaying` stays
true throughout). -/
def playNotesProgress (notes : List NoteEvent) : List ℤ :=
  playNotesF notes.length notes.length 0

/-- The placeholder sentinel shown before any music is generated
(the exact string tested by playAudio and downloadABC). -/
def placeholderText : String :=
  "🎼 No music generated yet. Click \"Generate Music\" to start."

/-- The mutable transport state shared by the playback callbacks:
`isPlaying`, `currentNotes` and `currentNoteIndex`. -/
structure PlayerState where
  isPlaying : Bool
  currentNotes : List NoteEvent
  currentNoteIndex : ℕ
  deriving DecidableEq, Repr

/-- The state transition of playAudio in static/js/playback.js, up to the
point where the scheduling loop `playNotes()` would start. Returns the new
transport state, whether a scheduling loop is started, and the error
message reported to the user (if any). JS `!notation` on a string is true
exactly for the empty string. The middle branch mirrors the source's dead
`currentNotes.length === 0` check (parseABCNotation never returns an empty
sequence): there the source has already set `isPlaying = true` and
`currentNotes`, then resets `isPlaying` to false and returns without
starting the loop. -/
def playAudioModel (s : String) (st : PlayerState) :
    PlayerState × Bool × Option String :=
  if s = "" ∨ s = placeholderText then (st, false, some "No music to play")
  else
    let notes := parseABC s
    if notes.length = 0 then
      (⟨false, notes, st.currentNoteIndex⟩, false, some "No valid notes found in notation")
    else
      (⟨true, notes, 0⟩, true, none)

/-! Helper lemmas: the fuel argument of `scanLineF` is irrelevant as soon
as it covers the length of the remaining input. -/

theorem dropWhile_length_le (p : Char → Bool) (l : List Char) :
    (l.dropWhile p).length ≤ l.length :=
  (List.dropWhile_sublist p).length_le

theorem skipQuote_length_le (l : List Char) : (skipQuote l).length ≤ l.length := by
  unfold skipQuote
  calc ((l.dropWhile (fun c => !(c = quoteChar))).drop 1).length
      ≤ (l.dropWhile (fun c => !(c = quoteChar))).length := by
        simp
    _ ≤ l.length := dropWhile_length_le _ l

theorem parseDuration_length_le (l : List Char) :
    (parseDuration l).2.length ≤ l.length := by
  rcases l with _ | ⟨c, rest⟩
  · simp [parseDuration]
  · rcases rest with _ | ⟨d, rest2⟩
    · simp [parseDuration]
      split_ifs <;> simp
    · rcases rest2 with _ | ⟨e, rest3⟩ <;>
        · simp only [parseDuration]
          split_ifs <;> simp <;> omega

theorem scanLineF_congr : ∀ (f g : ℕ) (l : List Char),
    l.length ≤ f → l.length ≤ g → scanLineF f l = scanLineF g l := by
  intro f
  induction f with
  | zero =>
    intro g l hf _
    have : l = [] := List.length_eq_zero.mp (Nat.le_zero.mp hf)
    subst this
    cases g <;> rfl
  | succ f ih =>
    intro g l hf hg
    cases g with
    | zero =>
      have : l = [] := List.length_eq_zero.mp (Nat.le_zero.mp hg)
      subst this
      rfl
    | succ g =>
      rcases l with _ | ⟨c, rest⟩
      · rfl
      · have hrf : rest.length ≤ f := by simpa using hf
        have hrg : rest.length ≤ g := by simpa using hg
        simp only [scanLineF]
        have h1 : (skipQuote rest).length ≤ rest.length := skipQuote_length_le rest
        have hAcc : (rest.dropWhile isAccidentalC).length ≤ rest.length :=
          dropWhile_length_le _ rest
        have hOct : ((rest.dropWhile isAccidentalC).dropWhile isOctaveC).length ≤
            (rest.dropWhile isAccidentalC).length := dropWhile_length_le _ _
        have hPd : (parseDuration ((rest.dropWhile isAccidentalC).dropWhile isOctaveC)).2.length ≤
            rest.length :=
          le_trans (parseDuration_length_le _) (le_trans hOct hAcc)
        have hPdz : (parseDuration rest).2.length ≤ rest.length :=
          parseDuration_length_le rest
        split_ifs
        · exact ih g _ (le_trans h1 hrf) (le_trans h1 hrg)
        · exact ih g rest hrf hrg
        · exact ih g rest hrf hrg
        · exact ih g rest hrf hrg
        · exact congrArg _ (ih g _ (le_trans hPd hrf) (le_trans hPd hrg))
        · exact congrArg _ (ih g _ (le_trans hPdz hrf) (le_trans hPdz hrg))
        · exact ih g rest hrf hrg

/-- Unfolding equation for `scanLine` on a nonempty line: one loop
iteration of the source scan. -/
theorem scanLine_cons (c : Char) (rest : List Char) :
    scanLine (c :: rest) =
      if c = quoteChar then scanLine (skipQuote rest)
      else if isBarC c then scanLine rest
      else if c = ' ' then scanLine rest
      else if isDecoC c then scanLine rest
      else if isNoteLetterC c then
        ⟨noteToMIDI (String.mk (c :: (rest.dropWhile isAccidentalC).takeWhile isOctaveC)),
          (parseDuration ((rest.dropWhile isAccidentalC).dropWhile isOctaveC)).1, false⟩ ::
          scanLine (parseDuration ((rest.dropWhile isAccidentalC).dropWhile isOctaveC)).2
      else if c = 'z' then
        ⟨0, (parseDuration rest).1, true⟩ :: scanLine (parseDuration rest).2
      else scanLine rest := by
  show scanLineF (rest.length + 1) (c :: rest) = _
  simp only [scanLineF, scanLine]
  have h1 : (skipQuote rest).length ≤ rest.length := skipQuote_length_le rest
  have hPd : (parseDuration ((rest.dropWhile isAccidentalC).dropWhile isOctaveC)).2.length ≤
      rest.length :=
    le_trans (parseDuration_length_le _)
      (le_trans (dropWhile_length_le _ _) (dropWhile_length_le _ _))
  have hPdz : (parseDuration rest).2.length ≤ rest.length := parseDuration_length_le rest
  split_ifs
  · exact scanLineF_congr _ _ _ h1 le_rfl
  · exact scanLineF_congr _ _ _ (le_refl rest.length) le_rfl
  · exact scanLineF_congr _ _ _ (le_refl rest.length) le_rfl
  · exact scanLineF_congr _ _ _ (le_refl rest.length) le_rfl
  · exact congrArg _ (scanLineF_congr _ _ _ hPd le_rfl)
  · exact congrArg _ (scanLineF_congr _ _ _ hPdz le_rfl)
  · exact scanLineF_congr _ _ _ (le_refl rest.length) le_rfl

/-- Claim C1: for every input string (including the empty string and
headers-only input) the parser returns, without raising, a non-empty
sequence of events; parse of the empty string and of a headers-only input
both return exactly the 8-event default sequence, pitches
64, 67, 69, 71, 76, 79, 81, 83, each with duration 1 and not a rest. -/
theorem C1_parse_total_and_fallback :
    (∀ s : String, parseABC s ≠ []) ∧
    parseABC "" =
      [⟨64, 1, false⟩, ⟨67, 1, false⟩, ⟨69, 1, false⟩, ⟨71, 1, false⟩,
       ⟨76, 1, false⟩, ⟨79, 1, false⟩, ⟨81, 1, false⟩, ⟨83, 1, false⟩] ∧
    parseABC "X:1\nT:Foo\n" =
      [⟨64, 1, false⟩, ⟨67, 1, false⟩, ⟨69, 1, false⟩, ⟨71, 1, false⟩,
       ⟨76, 1, false⟩, ⟨79, 1, false⟩, ⟨81, 1, false⟩, ⟨83, 1, false⟩] := by
  refine ⟨fun s => ?_, by decide, by decide⟩
  unfold parseABC
  by_cases h0 : (collectNotes s).length = 0
  · rw [if_pos h0]
    decide
  · rw [if_neg h0]
    exact fun hnil => h0 (by rw [hnil]; rfl)

/-- Claim C1, concrete instance of the totality conjunct. -/
theorem C1_parse_total_and_fallback_witness : parseABC "z" ≠ [] :=
  C1_parse_total_and_fallback.1 "z"

/-- Claim C5: the end-to-end example: the two header lines contribute
nothing, bar lines and spaces emit nothing, and the input parses to the
exact six-event sequence. -/
theorem C5_end_to_end :
    parseABC "X:1\nK:G\nAB cd|z2 e2|" =
      [⟨69, 1, false⟩, ⟨71, 1, false⟩, ⟨72, 1, false⟩, ⟨74, 1, false⟩,
       ⟨0, 2, true⟩, ⟨76, 2, false⟩] := by decide

/-- Claim C3, counterexample: the input `c0` produces an event whose
duration is 0, so the duration of a parsed event is not always strictly
positive. -/
theorem C3_duration_zero_cex :
    (⟨72, 0, false⟩ : NoteEvent) ∈ parseABC "c0" ∧
    ¬ (0 < (⟨72, 0, false⟩ : NoteEvent).duration) := by decide

/-- Claim C4, counterexample: the parser reads at most a single digit for
the numerator, so `c12` yields a single event of duration 1 (not 12): the
second digit is skipped as an unrecognized character. -/
theorem C4_single_digit_cex :
    (parseABC "c12").map NoteEvent.duration = [1] ∧
    ¬ (parseABC "c12").map NoteEvent.duration = [12] := by decide

/-- Claim C7: play on an absent/empty or placeholder buffer reports the
user-visible no-music error and returns with the transport state
(isPlaying, sequence, index) unchanged and no scheduling loop started. -/
theorem C7_play_no_input :
    ∀ (st : PlayerState) (s : String), s = "" ∨ s = placeholderText →
      playAudioModel s st = (st, false, some "No music to play") := by
  intro st s h
  unfold playAudioModel
  rw [if_pos h]

/-- Claim C7, concrete instance: play on the empty buffer from a
quiescent state. -/
theorem C7_play_no_input_witness :
    playAudioModel "" ⟨false, [], 0⟩ =
      (⟨false, [], 0⟩, false, some "No music to play") :=
  C7_play_no_input ⟨false, [], 0⟩ "" (Or.inl rfl)

/-- Claim C9 (code bug witnessed): playAudio has no re-entrancy guard:
invoked while the transport is already playing (isPlaying = true, any
active sequence, any cursor), it still starts a scheduling loop, over the
freshly parsed sequence, with the cursor reset to 0. -/
theorem C9_reentrant_play_unguarded :
    ∀ (notes : List NoteEvent) (idx : ℕ),
      (playAudioModel "c" ⟨true, notes, idx⟩).2.1 = true ∧
      (playAudioModel "c" ⟨true, notes, idx⟩).1 = ⟨true, parseABC "c", 0⟩ := by
  intro notes idx
  unfold playAudioModel
  rw [if_neg (by decide), if_neg (by decide)]
  exact ⟨rfl, rfl⟩

/-- Claim C10: the playback.js and generation.js copies of the core are
behaviourally identical: the two parsers, the two pitch mappers and the
two default sequences agree on every input. -/
theorem C10_duplicate_copies_equal :
    (∀ s : String, parseABC s = parseABC_gen s) ∧
    (∀ t : String, noteToMIDI t = noteToMIDI_gen t) ∧
    getDefaultNotes = getDefaultNotes_gen := by
  refine ⟨fun s => ?_, fun t => rfl, rfl⟩
  unfold parseABC parseABC_gen
  have h : collectNotes_gen s = collectNotes s := rfl
  rw [h]
  by_cases h0 : (collectNotes s).length = 0
  · simp [h0]
    rfl
  · simp [h0, Nat.pos_of_ne_zero h0]

/-- Claim C2: for a token made of a base letter followed by octave
markers, the pitch is the table value of the letter (64 for letters not in
the table), plus 12 per apostrophe, minus 12 per comma, clamped into
`[0, 127]`; the result is always within `[0, 127]`; and the documented
values hold: toPitch of c, c-up, c-down-down, C, and the 13 table
letters. -/
theorem C2_toPitch_octave_arith :
    (∀ (L : Char) (ms : List Char), isLetterC L = true →
      (∀ c ∈ ms, isOctaveC c = true) →
      noteToMIDI (String.mk (L :: ms)) =
        max 0 (min 127 (baseVal L + 12 * (ms.count apoChar : ℤ) -
          12 * (ms.count commaChar : ℤ)))) ∧
    (∀ t : String, 0 ≤ noteToMIDI t ∧ noteToMIDI t ≤ 127) ∧
    noteToMIDI "c" = 72 ∧
    noteToMIDI (String.mk ['c', apoChar]) = 84 ∧
    noteToMIDI (String.mk ['c', commaChar, commaChar]) = 48 ∧
    noteToMIDI "C" = 64 ∧
    noteToMIDI "D" = 62 ∧ noteToMIDI "E" = 64 ∧ noteToMIDI "F" = 65 ∧
    noteToMIDI "G" = 67 ∧ noteToMIDI "A" = 69 ∧ noteToMIDI "B" = 71 ∧
    noteToMIDI "d" = 74 ∧ noteToMIDI "e" = 76 ∧ noteToMIDI "f" = 77 ∧
    noteToMIDI "g" = 79 ∧ noteToMIDI "a" = 81 ∧ noteToMIDI "b" = 83 := by
  refine ⟨?_, ?_, by decide⟩
  · intro L ms hL hms
    simp only [isLetterC, Bool.or_eq_true, Bool.and_eq_true,
      decide_eq_true_eq] at hL
    have hLo : isOctaveC L = false := by
      simp only [isOctaveC, Bool.or_eq_false_iff, decide_eq_false_iff_not]
      omega
    have hfil : (L :: ms).filter (fun c => !(isOctaveC c)) = [L] := by
      simp only [List.filter_cons, hLo, Bool.not_false, if_pos]
      simp only [List.cons.injEq, true_and]
      exact List.filter_eq_nil_iff.mpr (fun a ha => by simp [hms a ha])
    have hLapo : ¬ (L = apoChar) := by
      intro h
      have : L.toNat = 39 := by rw [h]; rfl
      omega
    have hLcomma : ¬ (L = commaChar) := by
      intro h
      have : L.toNat = 44 := by rw [h]; rfl
      omega
    have hc1 : (L :: ms).count apoChar = ms.count apoChar := by
      rw [List.count_cons]
      simp [hLapo]
    have hc2 : (L :: ms).count commaChar = ms.count commaChar := by
      rw [List.count_cons]
      simp [hLcomma]
    simp only [noteToMIDI]
    rw [hfil, hc1, hc2]
    rfl
  · intro t
    simp only [noteToMIDI]
    exact ⟨le_max_left 0 _, max_le (by norm_num) (min_le_left _ _)⟩

/-- Claim C2, concrete instance: the octave arithmetic at the token
e-up-down. -/
theorem C2_toPitch_octave_arith_witness :
    noteToMIDI (String.mk ['e', apoChar, commaChar]) =
      max 0 (min 127 (baseVal 'e' +
        12 * (([apoChar, commaChar] : List Char).count apoChar : ℤ) -
        12 * (([apoChar, commaChar] : List Char).count commaChar : ℤ))) :=
  C2_toPitch_octave_arith.1 'e' [apoChar, commaChar] (by decide) (by decide)

theorem dropWhile_append_of_all (p : Char → Bool) (ms rest : List Char)
    (h : ∀ a ∈ ms, p a = true) :
    (ms ++ rest).dropWhile p = rest.dropWhile p := by
  induction ms with
  | nil => rfl
  | cons a ms ih =>
    rw [List.cons_append, List.dropWhile_cons, h a (List.mem_cons_self a ms)]
    simp only [if_true]
    exact ih (fun b hb => h b (List.mem_cons_of_mem a hb))

/-- Claim C8: accidental markers after a note's base letter are consumed
but never influence the emitted events: the scan of a line that starts
with a note letter is unchanged when any run of accidental markers is
inserted right after that letter, and on whole inputs inserting the
markers after note letters leaves the parse unchanged. -/
theorem C8_accidentals_ignored :
    (∀ (L : Char) (ms rest : List Char), isNoteLetterC L = true →
      (∀ a ∈ ms, isAccidentalC a = true) →
      scanLine (L :: (ms ++ rest)) = scanLine (L :: rest)) ∧
    parseABC "c^^2" = parseABC "c2" ∧
    parseABC "A_b=c" = parseABC "Abc" := by
  refine ⟨?_, by decide, by decide⟩
  intro L ms rest hL hms
  have hLn : 65 ≤ L.toNat ∧ L.toNat ≤ 71 ∨ 97 ≤ L.toNat ∧ L.toNat ≤ 103 := by
    simpa [isNoteLetterC] using hL
  have h34 : ¬ (L = quoteChar) := by
    intro h
    have : L.toNat = 34 := by rw [h]; rfl
    omega
  have hbar : ¬ (isBarC L = true) := by
    simp only [isBarC, Bool.or_eq_true, decide_eq_true_eq]
    omega
  have hsp : ¬ (L = ' ') := by
    intro h
    have : L.toNat = 32 := by rw [h]; rfl
    omega
  have hdec : ¬ (isDecoC L = true) := by
    simp only [isDecoC, Bool.or_eq_true, decide_eq_true_eq]
    omega
  rw [scanLine_cons, scanLine_cons]
  simp only [if_neg h34, if_neg hbar, if_neg hsp, if_neg hdec, if_pos hL]
  rw [dropWhile_append_of_all isAccidentalC ms rest hms]

/-- Claim C8, concrete instance: two accidentals inserted after the base
letter of a note token with a duration. -/
theorem C8_accidentals_ignored_witness :
    scanLine ('c' :: (['^', '_'] ++ ['2'])) = scanLine ('c' :: ['2']) :=
  C8_accidentals_ignored.1 'c' ['^', '_'] ['2'] (by decide) (by decide)

theorem parseDuration_nonneg (l : List Char) : 0 ≤ (parseDuration l).1 := by
  rcases l with _ | ⟨c, rest⟩
  · simp [parseDuration]
  · rcases rest with _ | ⟨d, rest2⟩
    · simp only [parseDuration]
      split_ifs <;> positivity
    · rcases rest2 with _ | ⟨e, rest3⟩ <;>
        · simp only [parseDuration]
          split_ifs <;> positivity

theorem scanLineF_dur_nonneg : ∀ (f : ℕ) (l : List Char) (e : NoteEvent),
    e ∈ scanLineF f l → 0 ≤ e.duration := by
  intro f
  induction f with
  | zero =>
    intro l e h
    simp [scanLineF] at h
  | succ f ih =>
    intro l e h
    rcases l with _ | ⟨c, rest⟩
    · simp [scanLineF] at h
    · simp only [scanLineF] at h
      split_ifs at h
      · exact ih _ e h
      · exact ih _ e h
      · exact ih _ e h
      · exact ih _ e h
      · rcases List.mem_cons.mp h with rfl | h2
        · exact parseDuration_nonneg _
        · exact ih _ e h2
      · rcases List.mem_cons.mp h with rfl | h2
        · exact parseDuration_nonneg _
        · exact ih _ e h2
      · exact ih _ e h

/-- Claim C3 as amended: every event produced by the parser has a
nonnegative duration (zero is possible, for an explicit digit 0 in the
input, so strict positivity fails; see the counterexample). -/
theorem C3_duration_nonneg : ∀ (s : String) (e : NoteEvent),
    e ∈ parseABC s → 0 ≤ e.duration := by
  intro s e h
  simp only [parseABC] at h
  split_ifs at h
  · simp only [getDefaultNotes, List.mem_cons, List.not_mem_nil, or_false] at h
    rcases h with rfl | rfl | rfl | rfl | rfl | rfl | rfl | rfl <;> norm_num
  · unfold collectNotes at h
    rw [List.mem_flatten] at h
    obtain ⟨l1, hl1, he⟩ := h
    rw [List.mem_map] at hl1
    obtain ⟨ln, _, rfl⟩ := hl1
    unfold lineNotes at he
    split_ifs at he
    · simp at he
    · simp at he
    · exact scanLineF_dur_nonneg _ _ _ he

/-- Claim C3, concrete instance of the amended statement at input c. -/
theorem C3_duration_nonneg_witness :
    (⟨72, 1, false⟩ : NoteEvent) ∈ parseABC "c" ∧
    0 ≤ (⟨72, 1, false⟩ : NoteEvent).duration :=
  ⟨by decide, C3_duration_nonneg "c" ⟨72, 1, false⟩ (by decide)⟩

/-- Claim C4 as amended: the duration scan reads at most a single leading
digit as the numerator (default 1 if absent) and, after an optional `/`,
at most a single digit as the denominator (defaulting to 2 when the `/`
has no following digit); consequently `c12` has duration 1 (the second
digit is skipped separately), `c3/16` has duration 3, a bare letter has
duration 1, and a trailing `/` halves the numerator. -/
theorem C4_duration_grammar :
    (∀ rest : List Char,
      (∀ c, rest.head? = some c → c.isDigit = false ∧ c.toNat ≠ 47) →
      parseDuration rest = (1, rest)) ∧
    (∀ (d : Char) (rest : List Char), d.isDigit = true →
      (∀ c, rest.head? = some c → c.toNat ≠ 47) →
      parseDuration (d :: rest) = ((digitVal d : ℚ), rest)) ∧
    (∀ (d e : Char) (rest : List Char), d.isDigit = true → e.isDigit = true →
      parseDuration (d :: slashChar :: e :: rest) =
        ((digitVal d : ℚ) / (digitVal e : ℚ), rest)) ∧
    (∀ (d : Char) (rest : List Char), d.isDigit = true →
      (∀ c, rest.head? = some c → c.isDigit = false) →
      parseDuration (d :: slashChar :: rest) = ((digitVal d : ℚ) / 2, rest)) ∧
    (∀ (e : Char) (rest : List Char), e.isDigit = true →
      parseDuration (slashChar :: e :: rest) = ((1 : ℚ) / (digitVal e : ℚ), rest)) ∧
    (∀ rest : List Char, (∀ c, rest.head? = some c → c.isDigit = false) →
      parseDuration (slashChar :: rest) = ((1 : ℚ) / 2, rest)) ∧
    parseABC "c" = [⟨72, 1, false⟩] ∧
    (parseABC "c12").map NoteEvent.duration = [1] ∧
    (parseABC "c3/16").map NoteEvent.duration = [3] ∧
    (parseABC "c/").map NoteEvent.duration = [1 / 2] := by
  have hs47 : slashChar.toNat = 47 := rfl
  have hsd : slashChar.isDigit = false := rfl
  refine ⟨?_, ?_, ?_, ?_, ?_, ?_, by decide, by decide, ?_, ?_⟩
  · intro rest h
    rcases rest with _ | ⟨x, r2⟩
    · rfl
    · obtain ⟨hxd, hxs⟩ := h x rfl
      simp [parseDuration, hxd, hxs]
  · intro d rest hd h
    rcases rest with _ | ⟨x, r2⟩
    · simp [parseDuration, hd]
    · have hx : x.toNat ≠ 47 := h x rfl
      simp [parseDuration, hd, hx]
  · intro d e rest hd he
    simp [parseDuration, hd, he, hs47]
  · intro d rest hd h
    rcases rest with _ | ⟨x, r2⟩
    · simp [parseDuration, hd, hs47]
    · have hx : x.isDigit = false := h x rfl
      simp [parseDuration, hd, hs47, hx]
  · intro e rest he
    simp [parseDuration, hsd, hs47, he]
  · intro rest h
    rcases rest with _ | ⟨x, r2⟩
    · simp [parseDuration, hsd, hs47]
    · have hx : x.isDigit = false := h x rfl
      simp [parseDuration, hsd, hs47, hx]
  · rw [show parseABC "c3/16" =
      [⟨72, (digitVal '3' : ℚ) / (digitVal '1' : ℚ), false⟩] from rfl]
    show [(digitVal '3' : ℚ) / (digitVal '1' : ℚ)] = [3]
    rw [show digitVal '3' = 3 from rfl, show digitVal '1' = 1 from rfl]
    norm_num
  · rw [show parseABC "c/" = [⟨72, (1 : ℚ) / 2, false⟩] from rfl]
    rfl

/-- Claim C4, concrete instance: numerator digit, slash, denominator
digit. -/
theorem C4_duration_grammar_witness :
    parseDuration ['3', slashChar, '4'] =
      ((digitVal '3' : ℚ) / (digitVal '4' : ℚ), []) :=
  C4_duration_grammar.2.2.1 '3' '4' [] (by decide) (by decide)

theorem playNotesF_eq : ∀ (f total idx : ℕ), total - idx ≤ f →
    playNotesF f total idx =
      (List.range (total - idx)).map
        (fun j => jsRound (((idx + j + 1 : ℕ) : ℚ) / (total : ℚ) * 100)) := by
  intro f
  induction f with
  | zero =>
    intro total idx h
    rw [Nat.le_zero.mp h]
    rfl
  | succ f ih =>
    intro total idx h
    by_cases hlt : idx < total
    · have hsub : total - idx = (total - (idx + 1)) + 1 := by omega
      simp only [playNotesF, if_pos hlt]
      rw [hsub, List.range_succ_eq_map, List.map_cons, List.map_map]
      congr 1
      rw [ih total (idx + 1) (by omega)]
      apply List.map_congr_left
      intro j _
      simp only [Function.comp_apply]
      rw [show idx + Nat.succ j + 1 = idx + 1 + j + 1 from by omega]
    · simp only [playNotesF, if_neg hlt]
      rw [Nat.sub_eq_zero_of_le (by omega)]
      rfl

theorem playNotesProgress_eq (notes : List NoteEvent) :
    playNotesProgress notes =
      (List.range notes.length).map
        (fun k => jsRound (((k + 1 : ℕ) : ℚ) / (notes.length : ℚ) * 100)) := by
  unfold playNotesProgress
  rw [playNotesF_eq notes.length notes.length 0 (by omega)]
  simp only [Nat.sub_zero, Nat.zero_add]

theorem jsRound_mono {a b : ℚ} (h : a ≤ b) : jsRound a ≤ jsRound b :=
  Int.floor_le_floor (by linarith)

theorem jsRound_strict {a b : ℚ} (h : a + 1 ≤ b) : jsRound a < jsRound b := by
  have h2 : jsRound a + 1 ≤ jsRound b := by
    unfold jsRound
    calc ⌊a + 1 / 2⌋ + 1 = ⌊a + 1 / 2 + 1⌋ := (Int.floor_add_one _).symm
      _ ≤ ⌊b + 1 / 2⌋ := Int.floor_le_floor (by linarith)
  omega

theorem jsRound_step {N : ℚ} (hN : 0 < N) (hle : N ≤ 100) (a b : ℚ)
    (hab : a + 1 ≤ b) : a / N * 100 + 1 ≤ b / N * 100 := by
  rw [div_mul_eq_mul_div, div_mul_eq_mul_div, div_add' _ _ _ (ne_of_gt hN),
    div_le_div_iff₀ hN hN]
  nlinarith

/-- Claim C6 as amended: a run to natural completion over a non-empty
sequence of length N reports exactly N progress updates, the k-th carrying
round(k divided by N times 100); the percentages are nondecreasing and end
at 100, and they are strictly increasing whenever N is at most 100 (for
longer sequences consecutive equal percentages occur; see the
counterexample). -/
theorem C6_progress_reports :
    ∀ notes : List NoteEvent, notes ≠ [] →
      playNotesProgress notes =
        (List.range notes.length).map
          (fun k => jsRound (((k + 1 : ℕ) : ℚ) / (notes.length : ℚ) * 100)) ∧
      (playNotesProgress notes).length = notes.length ∧
      List.Chain' (· ≤ ·) (playNotesProgress notes) ∧
      (playNotesProgress notes).getLast? = some 100 ∧
      (notes.length ≤ 100 → List.Chain' (· < ·) (playNotesProgress notes)) := by
  intro notes hne
  obtain ⟨m, hm⟩ : ∃ m, notes.length = m + 1 := by
    have := List.length_pos.mpr hne
    exact ⟨notes.length - 1, by omega⟩
  have hN0 : (0 : ℚ) < ((m + 1 : ℕ) : ℚ) := by positivity
  have heq := playNotesProgress_eq notes
  rw [hm] at heq
  refine ⟨by rw [← hm] at heq; exact heq, ?_, ?_, ?_, ?_⟩
  · rw [heq, hm]
    simp
  · rw [heq, List.chain'_map, List.chain'_range_succ]
    intro k hk
    apply jsRound_mono
    gcongr
    omega
  · rw [heq, List.range_succ, List.map_append, List.map_cons, List.map_nil,
      List.getLast?_concat]
    have hval : ((m + 1 : ℕ) : ℚ) / ((m + 1 : ℕ) : ℚ) * 100 = 100 := by
      rw [div_self (ne_of_gt hN0), one_mul]
    rw [hval]
    have : jsRound 100 = 100 := by
      unfold jsRound
      rw [Int.floor_eq_iff]
      norm_num
    rw [this]
  · intro h100
    have hNle : ((m + 1 : ℕ) : ℚ) ≤ 100 := by
      rw [← hm]
      exact_mod_cast h100
    rw [heq, List.chain'_map, List.chain'_range_succ]
    intro k hk
    apply jsRound_strict
    apply jsRound_step hN0 hNle
    push_cast
    linarith

/-- Claim C6, concrete instance of the amended statement at the default
8-event sequence. -/
theorem C6_progress_reports_witness :
    getDefaultNotes ≠ [] ∧
    (playNotesProgress getDefaultNotes =
        (List.range getDefaultNotes.length).map
          (fun k => jsRound (((k + 1 : ℕ) : ℚ) / (getDefaultNotes.length : ℚ) * 100)) ∧
      (playNotesProgress getDefaultNotes).length = getDefaultNotes.length ∧
      List.Chain' (· ≤ ·) (playNotesProgress getDefaultNotes) ∧
      (playNotesProgress getDefaultNotes).getLast? = some 100 ∧
      (getDefaultNotes.length ≤ 100 →
        List.Chain' (· < ·) (playNotesProgress getDefaultNotes))) :=
  ⟨by decide, C6_progress_reports getDefaultNotes (by decide)⟩

/-- Claim C6, counterexample: over a parsed sequence of 101 notes the
reported percentages are not strictly increasing (the 50th and 51st
reports both carry 50 percent). -/
theorem C6_not_strict_cex :
    ¬ List.Chain' (· < ·)
      (playNotesProgress (parseABC (String.mk (List.replicate 101 'c')))) := by
  intro hchain
  have hlen : (parseABC (String.mk (List.replicate 101 'c'))).length = 101 := by
    decide
  have heq := playNotesProgress_eq (parseABC (String.mk (List.replicate 101 'c')))
  rw [hlen] at heq
  rw [heq, List.chain'_map, show (101 : ℕ) = 100 + 1 from rfl,
    List.chain'_range_succ] at hchain
  have h49 := hchain 49 (by norm_num)
  have e0 : jsRound (((49 + 1 : ℕ) : ℚ) / ((101 : ℕ) : ℚ) * 100) = 50 := by
    unfold jsRound
    rw [Int.floor_eq_iff]
    norm_num
  have e1 : jsRound (((49 + 1 + 1 : ℕ) : ℚ) / ((101 : ℕ) : ℚ) * 100) = 50 := by
    unfold jsRound
    rw [Int.floor_eq_iff]
    norm_num
  rw [e0, e1] at h49
  exact lt_irrefl _ h49
